import Mathlib

set_option maxHeartbeats 1000000
set_option maxRecDepth 4000

/-!
Shallow embedding of `src/client_server/server.js` (PA100-D remote control
relay server).  Byte strings are modelled as `List Char`; the serial `data`
handler becomes a pure function on the accumulation buffer; the rest of the
event-driven program becomes a step function on an explicit server state,
driven by a list of environment events.
-/

namespace Juma

/-! ### Line framer (serial `data` handler, `server.js` lines 104-132) -/

/-- The whitespace characters removed by JavaScript `String.prototype.trim`. -/
def jsWhitespace : List Char :=
  ['\t', '\n', '\u000B', '\u000C', '\r', ' ', '\u00A0', '\u1680',
   '\u2000', '\u2001', '\u2002', '\u2003', '\u2004', '\u2005', '\u2006', '\u2007',
   '\u2008', '\u2009', '\u200A', '\u2028', '\u2029', '\u202F', '\u205F', '\u3000', '\uFEFF']

/-- Whether JavaScript `trim` removes the character `c`. -/
def isJsSpace (c : Char) : Bool :=
  jsWhitespace.contains c

/-- JavaScript `s.trim()` over a list of characters (line 120). -/
def jsTrim (s : List Char) : List Char :=
  ((s.dropWhile isJsSpace).reverse.dropWhile isJsSpace).reverse

/-- `serialBuffer.replace(/\r/g, '')` (line 112). -/
def removeCR (s : List Char) : List Char :=
  s.filter (fun c => !(c == '\r'))

/-- JavaScript `s.split('\n')` (line 113); the result is always nonempty. -/
def splitNL : List Char → List (List Char)
  | [] => [[]]
  | c :: rest =>
    if c = '\n' then [] :: splitNL rest
    else
      match splitNL rest with
      | [] => [[c]]
      | l :: ls => (c :: l) :: ls

/-- `split('\n')` decomposed directly into (complete segments, retained last
segment), i.e. `lines` after `lines.pop()` together with the popped value
(lines 113-116).  Proved equal to the `splitNL`/`dropLast`/`getLastD`
presentation below. -/
def splitParts : List Char → List (List Char) × List Char
  | [] => ([], [])
  | c :: rest =>
    let r := splitParts rest
    if c = '\n' then (([] : List Char) :: r.1, r.2)
    else
      match r.1 with
      | [] => ([], c :: r.2)
      | l :: ls => ((c :: l) :: ls, r.2)

/-- The trim-and-drop-empty pass over the complete lines (lines 119-125):
each line is trimmed and broadcast only if nonempty. -/
def emitFrames (lines : List (List Char)) : List (List Char) :=
  (lines.map jsTrim).filter (fun l => decide (0 < l.length))

/-- One invocation of the `data` handler WITHOUT the final overflow guard
(lines 108-125): append the chunk, strip `\r`, split on `\n`, keep the last
segment as the new buffer, emit the trimmed nonempty complete lines. -/
def dataStepRaw (buffer chunk : List Char) : List (List Char) × List Char :=
  let s := removeCR (buffer ++ chunk)
  let lines := splitNL s
  (emitFrames lines.dropLast, lines.getLastD [])

/-- One full invocation of the `data` handler (lines 104-132): the emitted
frames, the new accumulation buffer, and whether the 1024-byte overflow
guard fired (lines 127-131, which clears the buffer and warns). -/
def dataStep (buffer chunk : List Char) : List (List Char) × List Char × Bool :=
  let r := dataStepRaw buffer chunk
  if r.2.length > 1024 then (r.1, [], true) else (r.1, r.2, false)

/-- Feeding a list of chunks through successive `data`-handler invocations,
starting from the given buffer; returns all frames emitted, in order, and
the final buffer. -/
def runChunks (buffer : List Char) : List (List Char) → List (List Char) × List Char
  | [] => ([], buffer)
  | c :: cs =>
    let r := dataStep buffer c
    let rest := runChunks r.2.1 cs
    (r.1 ++ rest.1, rest.2)

/-- Same as `runChunks` but without the overflow guard. -/
def runChunksRaw (buffer : List Char) : List (List Char) → List (List Char) × List Char
  | [] => ([], buffer)
  | c :: cs =>
    let r := dataStepRaw buffer c
    let rest := runChunksRaw r.2 cs
    (r.1 ++ rest.1, rest.2)

/-! ### Relay state machine (`server.js`, whole file) -/

/-- Socket ready states (the `ws` library's `readyState`). -/
inductive RState where
  | connecting
  | wsOpen
  | closing
  | closed
deriving DecidableEq

/-- One accepted client socket.  `tokenOk` records whether the token the
connection presented equals the configured `AUTH_TOKEN` (line 169);
`hasMessageHandler` records whether the `message` listener was registered
(line 180), which happens only after a successful token check. -/
structure Client where
  id : Nat
  tokenOk : Bool
  readyState : RState
  hasMessageHandler : Bool
deriving DecidableEq

/-- The process-global mutable state of `server.js`, plus observation logs:
`serialWrites` records every payload passed to `serial.write`, `sent`
records every `(client, message)` pair passed to `client.send`, `warnings`
counts `console.warn` calls, `pendingRetries` lists the delays of the
scheduled-but-not-yet-fired `setTimeout(initSerialPort, 5000)` timers, and
`wssStartCount` counts `new WebSocket.Server` constructions. -/
structure ServerState where
  serialConnected : Bool
  handlersInstalled : Bool
  pollTimer : Bool
  serialBuffer : List Char
  wssStarted : Bool
  wssStartCount : Nat
  nextId : Nat
  clients : List Client
  pendingRetries : List Nat
  serialWrites : List (List Char)
  sent : List (Nat × List Char)
  warnings : Nat
deriving DecidableEq

/-- Environment events delivered to the single-threaded event loop. -/
inductive Event where
  | openResult (ok : Bool)
  | retryFire
  | serialError (msg : List Char)
  | serialClose
  | serialData (chunk : List Char)
  | pollTick
  | clientConnect (tokenOk : Bool)
  | clientMessage (id : Nat) (payload : List Char)
  | clientClose (id : Nat)
deriving DecidableEq

/-- The fixed poll command `'=R\r\n'` (lines 140, 177). -/
def pollCmd : List Char := "=R\r\n".toList

/-- The `'\r\n'` terminator appended to client payloads (line 185). -/
def crlf : List Char := "\r\n".toList

/-- `'[STATUS] Serial connected'` (line 79). -/
def statusConnected : List Char := "[STATUS] Serial connected".toList

/-- `'[STATUS] Serial disconnected'` (line 100). -/
def statusDisconnected : List Char := "[STATUS] Serial disconnected".toList

/-- `` `[STATUS] Serial error: ${err.message}` `` (line 91). -/
def statusError (msg : List Char) : List Char :=
  "[STATUS] Serial error: ".toList ++ msg

/-- The clients selected by the loop body of `broadcastToClients`
(lines 45-49): not the excluded sender and `readyState === WebSocket.OPEN`. -/
def eligible (clients : List Client) (sender : Option Nat) : List Client :=
  clients.filter (fun c => !(sender == some c.id) && (c.readyState == RState.wsOpen))

/-- `broadcastToClients` (lines 43-50): no-op when the server does not
exist yet; otherwise `client.send(message)` on every eligible client. -/
def broadcastToClients (s : ServerState) (message : List Char) (sender : Option Nat) :
    ServerState :=
  if s.wssStarted then
    { s with sent := s.sent ++ (eligible s.clients sender).map (fun c => (c.id, message)) }
  else s

/-- Per-client delivery outcome of one broadcast: `fails` is an oracle for
transport-level send failure of each client socket (in `ws`, a send on an
OPEN socket does not throw synchronously; failures surface per socket).
Returns the ids that actually receive the message. -/
def broadcastDelivered (clients : List Client) (sender : Option Nat)
    (fails : Nat → Bool) : List Nat :=
  ((eligible clients sender).filter (fun c => !(fails c.id))).map (fun c => c.id)

/-- `startWebSocketServer` creation guard (lines 155-158): returns
immediately when the server already exists. -/
def startWebSocketServer (s : ServerState) : ServerState :=
  if s.wssStarted then s
  else { s with wssStarted := true, wssStartCount := s.wssStartCount + 1 }

/-- `startPolling` (lines 136-145): any existing interval is replaced, one
interval timer is active afterwards. -/
def startPolling (s : ServerState) : ServerState :=
  { s with pollTimer := true }

/-- `stopPolling` (lines 147-152). -/
def stopPolling (s : ServerState) : ServerState :=
  { s with pollTimer := false }

/-- Success branch of the `serial.open` callback (lines 72-83):
set connected, start (or keep) the WebSocket server, broadcast the
connected status, register serial handlers, start polling. -/
def onOpenSuccess (s : ServerState) : ServerState :=
  startPolling
    { (broadcastToClients (startWebSocketServer { s with serialConnected := true })
        statusConnected none) with handlersInstalled := true }

/-- Failure branch of `serial.open` (lines 64-69): schedule a retry of
`initSerialPort` 5000 ms later; no pending timer is cancelled. -/
def onOpenFail (s : ServerState) : ServerState :=
  { s with pendingRetries := s.pendingRetries ++ [5000] }

/-- One event handler of the single-threaded event loop.  Handlers run
atomically (§5 of the spec): each equation is the whole body of the
corresponding callback in `server.js`. -/
def step (s : ServerState) : Event → ServerState
  | .openResult ok => if ok then onOpenSuccess s else onOpenFail s
  | .retryFire =>
    match s.pendingRetries with
    | [] => s
    | _ :: rest => { s with pendingRetries := rest }
  | .serialError msg =>
    if s.handlersInstalled then
      { (broadcastToClients (stopPolling { s with serialConnected := false })
          (statusError msg) none) with
        pendingRetries := s.pendingRetries ++ [5000] }
    else s
  | .serialClose =>
    if s.handlersInstalled then
      { (broadcastToClients (stopPolling { s with serialConnected := false })
          statusDisconnected none) with
        pendingRetries := s.pendingRetries ++ [5000] }
    else s
  | .serialData chunk =>
    if s.handlersInstalled then
      let r := dataStep s.serialBuffer chunk
      let s1 := r.1.foldl (fun st line => broadcastToClients st line none)
        { s with serialBuffer := r.2.1 }
      if r.2.2 then { s1 with warnings := s1.warnings + 1 } else s1
    else s
  | .pollTick =>
    if s.pollTimer then
      if s.serialConnected then { s with serialWrites := s.serialWrites ++ [pollCmd] }
      else s
    else s
  | .clientConnect tokenOk =>
    if s.wssStarted then
      if tokenOk then
        let s1 := { s with
          clients := s.clients ++ [(⟨s.nextId, true, RState.wsOpen, true⟩ : Client)],
          nextId := s.nextId + 1 }
        if s1.serialConnected then
          { s1 with serialWrites := s1.serialWrites ++ [pollCmd] }
        else s1
      else
        { s with
          clients := s.clients ++ [(⟨s.nextId, false, RState.closing, false⟩ : Client)],
          nextId := s.nextId + 1 }
    else s
  | .clientMessage id payload =>
    match s.clients.find? (fun c => c.id == id) with
    | none => s
    | some c =>
      if c.hasMessageHandler then
        if s.serialConnected then
          { s with serialWrites := s.serialWrites ++ [payload ++ crlf] }
        else
          { s with warnings := s.warnings + 1 }
      else s
  | .clientClose id =>
    { s with clients := s.clients.map (fun c =>
        if c.id == id then { c with readyState := RState.closed } else c) }

/-- Process start: nothing connected, no server, empty buffer and logs. -/
def initState : ServerState :=
  ⟨false, false, false, [], false, 0, 0, [], [], [], [], 0⟩

/-- Run the event loop from an arbitrary state. -/
def runFrom (s : ServerState) (evs : List Event) : ServerState :=
  evs.foldl step s

/-- Run the event loop from process start. -/
def run (evs : List Event) : ServerState :=
  runFrom initState evs

/-- Structural invariant of every reachable state: client ids are fresh and
distinct, token verdicts are immutable, a client whose token check failed is
never open and never has a message handler, every recorded send went to an
authenticated client, the WebSocket server was constructed at most once, and
serial handlers exist only once the server does. -/
def GoodState (s : ServerState) : Prop :=
  (∀ c ∈ s.clients, c.id < s.nextId) ∧
  (s.clients.map (fun c => c.id)).Nodup ∧
  (∀ c ∈ s.clients, c.tokenOk = false →
    c.readyState ≠ RState.wsOpen ∧ c.hasMessageHandler = false) ∧
  (∀ p ∈ s.sent, ∃ c, c ∈ s.clients ∧ c.id = p.1 ∧ c.tokenOk = true) ∧
  (s.wssStartCount = if s.wssStarted then 1 else 0) ∧
  (s.handlersInstalled = true → s.wssStarted = true)

end Juma

namespace Juma

theorem splitNL_ne_nil (s : List Char) : splitNL s ≠ [] := by
  cases s with
  | nil => simp [splitNL]
  | cons c rest =>
    simp only [splitNL]
    split
    · simp
    · split <;> simp

theorem getLastD_irrel {α : Type} (a b x : α) (l : List α) :
    (x :: l).getLastD a = (x :: l).getLastD b := by
  cases l with
  | nil => rfl
  | cons y t => simp only [List.getLastD_cons]

theorem splitParts_eq (s : List Char) :
    splitParts s = ((splitNL s).dropLast, (splitNL s).getLastD []) := by
  induction s with
  | nil => rfl
  | cons c rest ih =>
    rcases hne : splitNL rest with _ | ⟨l, ls⟩
    · exact absurd hne (splitNL_ne_nil rest)
    · by_cases hc : c = '\n'
      · simp only [splitParts, splitNL, if_pos hc, ih, hne]
        cases ls with
        | nil => simp [List.getLastD_cons]
        | cons l2 ls2 => simp [List.getLastD_cons, List.dropLast_cons₂]
      · simp only [splitParts, splitNL, if_neg hc, ih, hne]
        cases ls with
        | nil => simp [List.getLastD_cons]
        | cons l2 ls2 =>
          simp only [List.dropLast_cons₂, List.getLastD_cons]

end Juma

namespace Juma

theorem removeCR_append (a b : List Char) :
    removeCR (a ++ b) = removeCR a ++ removeCR b := by
  simp [removeCR]

theorem not_cr_mem_removeCR (s : List Char) : '\r' ∉ removeCR s := by
  intro h
  have := List.of_mem_filter h
  simp at this

theorem removeCR_eq_self {s : List Char} (h : '\r' ∉ s) : removeCR s = s := by
  apply List.filter_eq_self.mpr
  intro a ha
  have : a ≠ '\r' := fun e => h (e ▸ ha)
  simp [this]

theorem splitParts_nil : splitParts [] = ([], []) := rfl

theorem splitParts_cons_nl (rest : List Char) :
    splitParts ('\n' :: rest) = ([] :: (splitParts rest).1, (splitParts rest).2) := by
  simp [splitParts]

theorem splitParts_cons_other {c : Char} (h : c ≠ '\n') (rest : List Char) :
    splitParts (c :: rest) =
      (match (splitParts rest).1 with
       | [] => ([], c :: (splitParts rest).2)
       | l :: ls => ((c :: l) :: ls, (splitParts rest).2)) := by
  simp [splitParts, h]

theorem splitParts_cons_other_nil {c : Char} (h : c ≠ '\n') {rest : List Char}
    (h1 : (splitParts rest).1 = []) :
    splitParts (c :: rest) = ([], c :: (splitParts rest).2) := by
  rw [splitParts_cons_other h, h1]

theorem splitParts_cons_other_cons {c : Char} (h : c ≠ '\n') {rest : List Char}
    {l : List Char} {ls : List (List Char)} (h1 : (splitParts rest).1 = l :: ls) :
    splitParts (c :: rest) = ((c :: l) :: ls, (splitParts rest).2) := by
  rw [splitParts_cons_other h, h1]

theorem mem_splitParts_snd {u : List Char} {x : Char} (h : x ∈ (splitParts u).2) :
    x ∈ u := by
  induction u with
  | nil => simp [splitParts_nil] at h
  | cons c rest ih =>
    by_cases hc : c = '\n'
    · subst hc
      rw [splitParts_cons_nl] at h
      exact List.mem_cons_of_mem _ (ih h)
    · rcases h1 : (splitParts rest).1 with _ | ⟨l, ls⟩
      · rw [splitParts_cons_other_nil hc h1] at h
        rcases List.mem_cons.mp h with h | h
        · exact h ▸ List.mem_cons_self _ _
        · exact List.mem_cons_of_mem _ (ih h)
      · rw [splitParts_cons_other_cons hc h1] at h
        exact List.mem_cons_of_mem _ (ih h)

theorem splitParts_append (s t : List Char) :
    (splitParts (s ++ t)).1
      = (splitParts s).1 ++ (splitParts ((splitParts s).2 ++ t)).1 ∧
    (splitParts (s ++ t)).2 = (splitParts ((splitParts s).2 ++ t)).2 := by
  induction s with
  | nil => simp [splitParts_nil]
  | cons c rest ih =>
    obtain ⟨ih1, ih2⟩ := ih
    rw [List.cons_append]
    by_cases hc : c = '\n'
    · subst hc
      simp only [splitParts_cons_nl, List.cons_append]
      exact ⟨by rw [ih1], ih2⟩
    · rcases h1 : (splitParts rest).1 with _ | ⟨l, ls⟩
      · have e1 := splitParts_cons_other_nil hc h1
        rcases hX : (splitParts ((splitParts rest).2 ++ t)).1 with _ | ⟨x, xs⟩
        · rw [h1, List.nil_append, hX] at ih1
          have e2 := splitParts_cons_other_nil hc ih1
          have e3 := splitParts_cons_other_nil hc hX
          rw [e1, e2]
          refine ⟨?_, ?_⟩
          · simp only [List.cons_append, e3, List.nil_append]
          · simp only [List.cons_append, e3, ih2]
        · rw [h1, List.nil_append, hX] at ih1
          have e2 := splitParts_cons_other_cons hc ih1
          have e3 := splitParts_cons_other_cons hc hX
          rw [e1, e2]
          refine ⟨?_, ?_⟩
          · simp only [List.cons_append, e3, List.nil_append]
          · simp only [List.cons_append, e3, ih2]
      · have e1 := splitParts_cons_other_cons hc h1
        rw [h1, List.cons_append] at ih1
        have e2 := splitParts_cons_other_cons hc ih1
        rw [e1, e2]
        refine ⟨?_, ?_⟩
        · simp [List.cons_append]
        · exact ih2

end Juma

namespace Juma

theorem emitFrames_append (a b : List (List Char)) :
    emitFrames (a ++ b) = emitFrames a ++ emitFrames b := by
  simp [emitFrames]

theorem dataStepRaw_eq (buffer chunk : List Char) :
    dataStepRaw buffer chunk =
      (emitFrames (splitParts (removeCR (buffer ++ chunk))).1,
       (splitParts (removeCR (buffer ++ chunk))).2) := by
  rw [dataStepRaw, splitParts_eq]

theorem dataStep_fst (buffer chunk : List Char) :
    (dataStep buffer chunk).1 = (dataStepRaw buffer chunk).1 := by
  rw [dataStep]
  split <;> rfl

theorem runChunksRaw_cons (b c : List Char) (cs : List (List Char)) :
    runChunksRaw b (c :: cs) =
      ((dataStepRaw b c).1 ++ (runChunksRaw (dataStepRaw b c).2 cs).1,
       (runChunksRaw (dataStepRaw b c).2 cs).2) := rfl

theorem runChunks_cons (b c : List Char) (cs : List (List Char)) :
    runChunks b (c :: cs) =
      ((dataStep b c).1 ++ (runChunks (dataStep b c).2.1 cs).1,
       (runChunks (dataStep b c).2.1 cs).2) := rfl

theorem runChunksRaw_resid (cs : List (List Char)) :
    ∀ u : List Char, '\r' ∉ u →
      (emitFrames (splitParts u).1 ++ (runChunksRaw ((splitParts u).2) cs).1
          = emitFrames (splitParts (u ++ removeCR cs.flatten)).1 ∧
       (runChunksRaw ((splitParts u).2) cs).2
          = (splitParts (u ++ removeCR cs.flatten)).2) := by
  induction cs with
  | nil =>
    intro u hu
    simp [runChunksRaw, removeCR]
  | cons c cs ih =>
    intro u hu
    have hR : '\r' ∉ (splitParts u).2 := fun h => hu (mem_splitParts_snd h)
    have hrcr : removeCR ((splitParts u).2 ++ c) = (splitParts u).2 ++ removeCR c := by
      rw [removeCR_append, removeCR_eq_self hR]
    have hstep := dataStepRaw_eq ((splitParts u).2) c
    rw [hrcr] at hstep
    have hsp1 := (splitParts_append u (removeCR c)).1
    have hsp2 := (splitParts_append u (removeCR c)).2
    have hu2 : '\r' ∉ u ++ removeCR c := by
      intro h
      rcases List.mem_append.mp h with h | h
      exacts [hu h, not_cr_mem_removeCR _ h]
    have ihu := ih (u ++ removeCR c) hu2
    rw [runChunksRaw_cons, hstep]
    have hjoin : u ++ removeCR (c :: cs).flatten = (u ++ removeCR c) ++ removeCR cs.flatten := by
      simp [removeCR_append, List.append_assoc]
    refine ⟨?_, ?_⟩
    · rw [← hsp2, ← List.append_assoc, ← emitFrames_append, ← hsp1, hjoin]
      exact ihu.1
    · rw [← hsp2, hjoin]
      exact ihu.2

theorem runChunksRaw_join (cs : List (List Char)) :
    runChunksRaw [] cs = dataStepRaw [] cs.flatten := by
  have h := runChunksRaw_resid cs [] (by simp)
  rw [splitParts_nil] at h
  have h1 := h.1
  have h2 := h.2
  simp only [emitFrames, List.map_nil, List.filter_nil, List.nil_append] at h1
  rw [dataStepRaw_eq, List.nil_append]
  rcases hr : runChunksRaw [] cs with ⟨fs, b⟩
  rw [hr] at h1 h2
  simp only at h1 h2
  rw [h1, h2]
  simp [emitFrames]

end Juma

namespace Juma

theorem runChunks_eq_raw (cs : List (List Char)) :
    ∀ b : List Char,
      (∀ i, i ≤ cs.length → ((runChunksRaw b (cs.take i)).2).length ≤ 1024) →
      runChunks b cs = runChunksRaw b cs := by
  induction cs with
  | nil => intro b _; rfl
  | cons c cs ih =>
    intro b h
    have h1 : ((dataStepRaw b c).2).length ≤ 1024 := by
      have := h 1 (by simp)
      simpa [List.take_succ_cons, runChunksRaw_cons, runChunksRaw] using this
    have hds : dataStep b c = ((dataStepRaw b c).1, (dataStepRaw b c).2, false) := by
      rw [dataStep, if_neg (by omega)]
    have h2 : ∀ i, i ≤ cs.length →
        ((runChunksRaw (dataStepRaw b c).2 (cs.take i)).2).length ≤ 1024 := by
      intro i hi
      have := h (i + 1) (by simpa using Nat.succ_le_succ hi)
      simpa [List.take_succ_cons, runChunksRaw_cons] using this
    rw [runChunks_cons, runChunksRaw_cons, hds, ih _ h2]

theorem not_mem_replicate_a {c : Char} (h : c ≠ 'a') (n : Nat) :
    c ∉ List.replicate n 'a' := by
  intro hm
  exact h (List.eq_of_mem_replicate hm)

theorem removeCR_replicate_a (n : Nat) :
    removeCR (List.replicate n 'a') = List.replicate n 'a' :=
  removeCR_eq_self (not_mem_replicate_a (by decide) n)

theorem splitParts_no_nl {s : List Char} (h : '\n' ∉ s) :
    splitParts s = ([], s) := by
  induction s with
  | nil => rfl
  | cons c rest ih =>
    have hc : c ≠ '\n' := fun e => h (e ▸ List.mem_cons_self _ _)
    have hr : '\n' ∉ rest := fun hm => h (List.mem_cons_of_mem _ hm)
    rw [splitParts_cons_other_nil hc (by rw [ih hr]), ih hr]

theorem jsTrim_replicate_a (n : Nat) :
    jsTrim (List.replicate n 'a') = List.replicate n 'a' := by
  have hdrop : ∀ m : Nat, List.dropWhile isJsSpace (List.replicate m 'a') = List.replicate m 'a' := by
    intro m
    cases m with
    | zero => rfl
    | succ k =>
      rw [List.replicate_succ, List.dropWhile_cons]
      simp [isJsSpace, jsWhitespace]
  rw [jsTrim, hdrop, List.reverse_replicate, hdrop, List.reverse_replicate]

theorem splitParts_append_nl {xs : List Char} (h : '\n' ∉ xs) (t : List Char) :
    splitParts (xs ++ '\n' :: t) = (xs :: (splitParts t).1, (splitParts t).2) := by
  induction xs with
  | nil => rw [List.nil_append, splitParts_cons_nl]
  | cons c rest ih =>
    have hc : c ≠ '\n' := fun e => h (e ▸ List.mem_cons_self _ _)
    have hr : '\n' ∉ rest := fun hm => h (List.mem_cons_of_mem _ hm)
    rw [List.cons_append, splitParts_cons_other_cons hc (by rw [ih hr]), ih hr]

theorem splitParts_replicate_a_nl (n : Nat) :
    splitParts (List.replicate n 'a' ++ ['\n']) = ([List.replicate n 'a'], []) := by
  rw [splitParts_append_nl (not_mem_replicate_a (by decide) n) [], splitParts_nil]

end Juma

namespace Juma

theorem broadcast_fields (s : ServerState) (m : List Char) (snd : Option Nat) :
    (broadcastToClients s m snd).serialConnected = s.serialConnected ∧
    (broadcastToClients s m snd).handlersInstalled = s.handlersInstalled ∧
    (broadcastToClients s m snd).pollTimer = s.pollTimer ∧
    (broadcastToClients s m snd).serialBuffer = s.serialBuffer ∧
    (broadcastToClients s m snd).wssStarted = s.wssStarted ∧
    (broadcastToClients s m snd).wssStartCount = s.wssStartCount ∧
    (broadcastToClients s m snd).nextId = s.nextId ∧
    (broadcastToClients s m snd).clients = s.clients ∧
    (broadcastToClients s m snd).pendingRetries = s.pendingRetries ∧
    (broadcastToClients s m snd).serialWrites = s.serialWrites ∧
    (broadcastToClients s m snd).warnings = s.warnings := by
  rw [broadcastToClients]
  split <;> exact ⟨rfl, rfl, rfl, rfl, rfl, rfl, rfl, rfl, rfl, rfl, rfl⟩

theorem foldl_broadcast_fields (fs : List (List Char)) (s : ServerState) :
    ((fs.foldl (fun st line => broadcastToClients st line none) s).serialConnected
        = s.serialConnected) ∧
    ((fs.foldl (fun st line => broadcastToClients st line none) s).handlersInstalled
        = s.handlersInstalled) ∧
    ((fs.foldl (fun st line => broadcastToClients st line none) s).pollTimer = s.pollTimer) ∧
    ((fs.foldl (fun st line => broadcastToClients st line none) s).serialBuffer
        = s.serialBuffer) ∧
    ((fs.foldl (fun st line => broadcastToClients st line none) s).wssStarted
        = s.wssStarted) ∧
    ((fs.foldl (fun st line => broadcastToClients st line none) s).wssStartCount
        = s.wssStartCount) ∧
    ((fs.foldl (fun st line => broadcastToClients st line none) s).nextId = s.nextId) ∧
    ((fs.foldl (fun st line => broadcastToClients st line none) s).clients = s.clients) ∧
    ((fs.foldl (fun st line => broadcastToClients st line none) s).pendingRetries
        = s.pendingRetries) ∧
    ((fs.foldl (fun st line => broadcastToClients st line none) s).serialWrites
        = s.serialWrites) ∧
    ((fs.foldl (fun st line => broadcastToClients st line none) s).warnings = s.warnings) := by
  induction fs generalizing s with
  | nil => exact ⟨rfl, rfl, rfl, rfl, rfl, rfl, rfl, rfl, rfl, rfl, rfl⟩
  | cons f fs ih =>
    have hb := broadcast_fields s f none
    have hi := ih (broadcastToClients s f none)
    rw [List.foldl_cons]
    refine ⟨?_, ?_, ?_, ?_, ?_, ?_, ?_, ?_, ?_, ?_, ?_⟩
    · rw [hi.1, hb.1]
    · rw [hi.2.1, hb.2.1]
    · rw [hi.2.2.1, hb.2.2.1]
    · rw [hi.2.2.2.1, hb.2.2.2.1]
    · rw [hi.2.2.2.2.1, hb.2.2.2.2.1]
    · rw [hi.2.2.2.2.2.1, hb.2.2.2.2.2.1]
    · rw [hi.2.2.2.2.2.2.1, hb.2.2.2.2.2.2.1]
    · rw [hi.2.2.2.2.2.2.2.1, hb.2.2.2.2.2.2.2.1]
    · rw [hi.2.2.2.2.2.2.2.2.1, hb.2.2.2.2.2.2.2.2.1]
    · rw [hi.2.2.2.2.2.2.2.2.2.1, hb.2.2.2.2.2.2.2.2.2.1]
    · rw [hi.2.2.2.2.2.2.2.2.2.2, hb.2.2.2.2.2.2.2.2.2.2]

theorem mem_eligible {clients : List Client} {snd : Option Nat} {c : Client} :
    c ∈ eligible clients snd ↔
      c ∈ clients ∧ c.readyState = RState.wsOpen ∧ snd ≠ some c.id := by
  rw [eligible, List.mem_filter]
  constructor
  · rintro ⟨hm, hcond⟩
    simp only [Bool.and_eq_true, Bool.not_eq_true', beq_eq_false_iff_ne, beq_iff_eq] at hcond
    exact ⟨hm, hcond.2, hcond.1⟩
  · rintro ⟨hm, hrs, hsnd⟩
    refine ⟨hm, ?_⟩
    simp only [Bool.and_eq_true, Bool.not_eq_true', beq_eq_false_iff_ne, beq_iff_eq]
    exact ⟨hsnd, hrs⟩

theorem broadcast_good {s : ServerState} (hs : GoodState s) (m : List Char)
    (snd : Option Nat) : GoodState (broadcastToClients s m snd) := by
  obtain ⟨h1, h2, h3, h4, h5, h6⟩ := hs
  rw [broadcastToClients]
  split
  · refine ⟨h1, h2, h3, ?_, h5, h6⟩
    intro p hp
    rcases List.mem_append.mp hp with hp | hp
    · exact h4 p hp
    · obtain ⟨c, hc, hcp⟩ := List.mem_map.mp hp
      obtain ⟨hce, hopen, _⟩ := mem_eligible.mp hc
      have htok : c.tokenOk = true := by
        by_contra hno
        exact (h3 c hce (by simpa using hno)).1 hopen
      exact ⟨c, hce, by rw [← hcp], htok⟩
  · exact ⟨h1, h2, h3, h4, h5, h6⟩

theorem foldl_broadcast_good {s : ServerState} (hs : GoodState s) (fs : List (List Char)) :
    GoodState (fs.foldl (fun st line => broadcastToClients st line none) s) := by
  induction fs generalizing s with
  | nil => exact hs
  | cons f fs ih => exact ih (broadcast_good hs f none)

theorem nodup_map_id_inj {l : List Client} (h : (l.map (fun c => c.id)).Nodup)
    {a b : Client} (ha : a ∈ l) (hb : b ∈ l) (hid : a.id = b.id) : a = b := by
  induction l with
  | nil => cases ha
  | cons x xs ih =>
    rw [List.map_cons, List.nodup_cons] at h
    rcases List.mem_cons.mp ha with rfl | ha2 <;> rcases List.mem_cons.mp hb with rfl | hb2
    · rfl
    · have : a.id ∈ xs.map (fun c => c.id) := by
        rw [hid]
        exact List.mem_map_of_mem _ hb2
      exact absurd this h.1
    · have : b.id ∈ xs.map (fun c => c.id) := by
        rw [← hid]
        exact List.mem_map_of_mem _ ha2
      exact absurd this h.1
    · exact ih h.2 ha2 hb2

theorem good_init : GoodState initState := by
  refine ⟨?_, ?_, ?_, ?_, ?_, ?_⟩ <;> simp [initState, GoodState, List.Nodup]

end Juma

namespace Juma

theorem step_openResult (s : ServerState) (ok : Bool) :
    step s (.openResult ok) = if ok then onOpenSuccess s else onOpenFail s := rfl

theorem step_retryFire (s : ServerState) :
    step s .retryFire =
      match s.pendingRetries with
      | [] => s
      | _ :: rest => { s with pendingRetries := rest } := rfl

theorem step_serialError (s : ServerState) (msg : List Char) :
    step s (.serialError msg) =
      if s.handlersInstalled then
        { (broadcastToClients (stopPolling { s with serialConnected := false })
            (statusError msg) none) with
          pendingRetries := s.pendingRetries ++ [5000] }
      else s := rfl

theorem step_serialClose (s : ServerState) :
    step s .serialClose =
      if s.handlersInstalled then
        { (broadcastToClients (stopPolling { s with serialConnected := false })
            statusDisconnected none) with
          pendingRetries := s.pendingRetries ++ [5000] }
      else s := rfl

theorem step_serialData (s : ServerState) (chunk : List Char) :
    step s (.serialData chunk) =
      if s.handlersInstalled then
        (if (dataStep s.serialBuffer chunk).2.2 then
          { ((dataStep s.serialBuffer chunk).1.foldl
              (fun st line => broadcastToClients st line none)
              { s with serialBuffer := (dataStep s.serialBuffer chunk).2.1 }) with
            warnings := ((dataStep s.serialBuffer chunk).1.foldl
              (fun st line => broadcastToClients st line none)
              { s with serialBuffer := (dataStep s.serialBuffer chunk).2.1 }).warnings + 1 }
        else
          (dataStep s.serialBuffer chunk).1.foldl
            (fun st line => broadcastToClients st line none)
            { s with serialBuffer := (dataStep s.serialBuffer chunk).2.1 })
      else s := rfl

theorem step_pollTick (s : ServerState) :
    step s .pollTick =
      if s.pollTimer then
        if s.serialConnected then { s with serialWrites := s.serialWrites ++ [pollCmd] }
        else s
      else s := rfl

theorem step_clientConnect (s : ServerState) (tokenOk : Bool) :
    step s (.clientConnect tokenOk) =
      if s.wssStarted then
        if tokenOk then
          if s.serialConnected then
            { s with
              clients := s.clients ++ [(⟨s.nextId, true, RState.wsOpen, true⟩ : Client)],
              nextId := s.nextId + 1,
              serialWrites := s.serialWrites ++ [pollCmd] }
          else
            { s with
              clients := s.clients ++ [(⟨s.nextId, true, RState.wsOpen, true⟩ : Client)],
              nextId := s.nextId + 1 }
        else
          { s with
            clients := s.clients ++ [(⟨s.nextId, false, RState.closing, false⟩ : Client)],
            nextId := s.nextId + 1 }
      else s := rfl

theorem step_clientMessage (s : ServerState) (id : Nat) (payload : List Char) :
    step s (.clientMessage id payload) =
      match s.clients.find? (fun c => c.id == id) with
      | none => s
      | some c =>
        if c.hasMessageHandler then
          if s.serialConnected then
            { s with serialWrites := s.serialWrites ++ [payload ++ crlf] }
          else
            { s with warnings := s.warnings + 1 }
        else s := rfl

theorem step_clientClose (s : ServerState) (id : Nat) :
    step s (.clientClose id) =
      { s with clients := s.clients.map (fun c =>
          if c.id == id then { c with readyState := RState.closed } else c) } := rfl

theorem sws_wssStarted (s : ServerState) : (startWebSocketServer s).wssStarted = true ∨
    (startWebSocketServer s).wssStarted = s.wssStarted := by
  rw [startWebSocketServer]
  split
  · exact Or.inr rfl
  · exact Or.inl rfl

theorem good_step {s : ServerState} (hs : GoodState s) (e : Event) :
    GoodState (step s e) := by
  obtain ⟨h1, h2, h3, h4, h5, h6⟩ := hs
  cases e with
  | openResult ok =>
    rw [step_openResult]
    cases ok with
    | false => exact ⟨h1, h2, h3, h4, h5, h6⟩
    | true =>
      simp only [if_true]
      have hsws : GoodState (startWebSocketServer { s with serialConnected := true }) := by
        rw [startWebSocketServer]
        split
        · exact ⟨h1, h2, h3, h4, h5, h6⟩
        · rename_i hns
          have hf : s.wssStarted = false := by simpa using hns
          refine ⟨h1, h2, h3, h4, ?_, fun _ => rfl⟩
          simp [h5, hf]
      have hstarted : (startWebSocketServer { s with serialConnected := true }).wssStarted
          = true := by
        rw [startWebSocketServer]
        split
        · rename_i ht; exact ht
        · rfl
      have hbc := broadcast_good hsws statusConnected none
      obtain ⟨g1, g2, g3, g4, g5, g6⟩ := hbc
      refine ⟨g1, g2, g3, g4, g5, fun _ => ?_⟩
      have hb := (broadcast_fields (startWebSocketServer { s with serialConnected := true })
        statusConnected none).2.2.2.2.1
      exact hb.trans hstarted
  | retryFire =>
    rw [step_retryFire]
    split
    · exact ⟨h1, h2, h3, h4, h5, h6⟩
    · exact ⟨h1, h2, h3, h4, h5, h6⟩
  | serialError msg =>
    rw [step_serialError]
    split
    · have hg : GoodState (stopPolling { s with serialConnected := false }) :=
        ⟨h1, h2, h3, h4, h5, h6⟩
      have hbc := broadcast_good hg (statusError msg) none
      exact ⟨hbc.1, hbc.2.1, hbc.2.2.1, hbc.2.2.2.1, hbc.2.2.2.2.1, hbc.2.2.2.2.2⟩
    · exact ⟨h1, h2, h3, h4, h5, h6⟩
  | serialClose =>
    rw [step_serialClose]
    split
    · have hg : GoodState (stopPolling { s with serialConnected := false }) :=
        ⟨h1, h2, h3, h4, h5, h6⟩
      have hbc := broadcast_good hg statusDisconnected none
      exact ⟨hbc.1, hbc.2.1, hbc.2.2.1, hbc.2.2.2.1, hbc.2.2.2.2.1, hbc.2.2.2.2.2⟩
    · exact ⟨h1, h2, h3, h4, h5, h6⟩
  | serialData chunk =>
    rw [step_serialData]
    split
    · have hg0 : GoodState { s with serialBuffer := (dataStep s.serialBuffer chunk).2.1 } :=
        ⟨h1, h2, h3, h4, h5, h6⟩
      have hg := foldl_broadcast_good hg0 (dataStep s.serialBuffer chunk).1
      split
      · exact ⟨hg.1, hg.2.1, hg.2.2.1, hg.2.2.2.1, hg.2.2.2.2.1, hg.2.2.2.2.2⟩
      · exact hg
    · exact ⟨h1, h2, h3, h4, h5, h6⟩
  | pollTick =>
    rw [step_pollTick]
    split
    · split
      · exact ⟨h1, h2, h3, h4, h5, h6⟩
      · exact ⟨h1, h2, h3, h4, h5, h6⟩
    · exact ⟨h1, h2, h3, h4, h5, h6⟩
  | clientConnect tokenOk =>
    rw [step_clientConnect]
    split
    · split
      · have hgnew : GoodState { s with
            clients := s.clients ++ [(⟨s.nextId, true, RState.wsOpen, true⟩ : Client)],
            nextId := s.nextId + 1 } := by
          refine ⟨?_, ?_, ?_, ?_, h5, h6⟩
          · intro c hc
            rcases List.mem_append.mp hc with hc | hc
            · exact Nat.lt_succ_of_lt (h1 c hc)
            · rw [List.mem_singleton.mp hc]
              exact Nat.lt_succ_self _
          · simp only [List.map_append, List.map_cons, List.map_nil]
            refine List.Nodup.append h2 (List.nodup_singleton _) ?_
            intro x hx hy
            rw [List.mem_singleton.mp hy] at hx
            obtain ⟨c, hc, hceq⟩ := List.mem_map.mp hx
            exact absurd hceq (Nat.ne_of_lt (h1 c hc))
          · intro c hc hf
            rcases List.mem_append.mp hc with hc | hc
            · exact h3 c hc hf
            · rw [List.mem_singleton.mp hc] at hf
              cases hf
          · intro p hp
            obtain ⟨c, hc, hcid, hctok⟩ := h4 p hp
            exact ⟨c, List.mem_append_left _ hc, hcid, hctok⟩
        split
        · exact ⟨hgnew.1, hgnew.2.1, hgnew.2.2.1, hgnew.2.2.2.1, hgnew.2.2.2.2.1,
            hgnew.2.2.2.2.2⟩
        · exact hgnew
      · refine ⟨?_, ?_, ?_, ?_, h5, h6⟩
        · intro c hc
          rcases List.mem_append.mp hc with hc | hc
          · exact Nat.lt_succ_of_lt (h1 c hc)
          · rw [List.mem_singleton.mp hc]
            exact Nat.lt_succ_self _
        · simp only [List.map_append, List.map_cons, List.map_nil]
          refine List.Nodup.append h2 (List.nodup_singleton _) ?_
          intro x hx hy
          rw [List.mem_singleton.mp hy] at hx
          obtain ⟨c, hc, hceq⟩ := List.mem_map.mp hx
          exact absurd hceq (Nat.ne_of_lt (h1 c hc))
        · intro c hc hf
          rcases List.mem_append.mp hc with hc | hc
          · exact h3 c hc hf
          · rw [List.mem_singleton.mp hc]
            exact ⟨fun h => RState.noConfusion h, rfl⟩
        · intro p hp
          obtain ⟨c, hc, hcid, hctok⟩ := h4 p hp
          exact ⟨c, List.mem_append_left _ hc, hcid, hctok⟩
    · exact ⟨h1, h2, h3, h4, h5, h6⟩
  | clientMessage id payload =>
    rw [step_clientMessage]
    cases hf : s.clients.find? (fun c => c.id == id) with
    | none => exact ⟨h1, h2, h3, h4, h5, h6⟩
    | some c =>
      show GoodState (if c.hasMessageHandler = true then
          if s.serialConnected = true then
            { s with serialWrites := s.serialWrites ++ [payload ++ crlf] }
          else { s with warnings := s.warnings + 1 }
        else s)
      split
      · split
        · exact ⟨h1, h2, h3, h4, h5, h6⟩
        · exact ⟨h1, h2, h3, h4, h5, h6⟩
      · exact ⟨h1, h2, h3, h4, h5, h6⟩
  | clientClose id =>
    rw [step_clientClose]
    have hid : ∀ c : Client,
        (if c.id == id then { c with readyState := RState.closed } else c).id = c.id := by
      intro c; split <;> rfl
    have htok : ∀ c : Client,
        (if c.id == id then { c with readyState := RState.closed } else c).tokenOk
          = c.tokenOk := by
      intro c; split <;> rfl
    have hmh : ∀ c : Client,
        (if c.id == id then { c with readyState := RState.closed } else c).hasMessageHandler
          = c.hasMessageHandler := by
      intro c; split <;> rfl
    refine ⟨?_, ?_, ?_, ?_, h5, h6⟩
    · intro c hc
      obtain ⟨c0, hc0, rfl⟩ := List.mem_map.mp hc
      rw [hid c0]
      exact h1 c0 hc0
    · rw [List.map_map]
      have : ((fun c : Client => c.id) ∘
          (fun c => if c.id == id then { c with readyState := RState.closed } else c))
          = fun c : Client => c.id := funext fun c => hid c
      rw [this]
      exact h2
    · intro c hc hf
      obtain ⟨c0, hc0, rfl⟩ := List.mem_map.mp hc
      rw [htok c0] at hf
      refine ⟨?_, by rw [hmh c0]; exact (h3 c0 hc0 hf).2⟩
      by_cases he : c0.id == id
      · rw [if_pos he]
        exact fun h => RState.noConfusion h
      · rw [if_neg he]
        exact (h3 c0 hc0 hf).1
    · intro p hp
      obtain ⟨c, hc, hcid, hctok⟩ := h4 p hp
      refine ⟨if c.id == id then { c with readyState := RState.closed } else c,
        List.mem_map_of_mem _ hc, ?_, ?_⟩
      · rw [hid c]; exact hcid
      · rw [htok c]; exact hctok

theorem good_runFrom {s : ServerState} (hs : GoodState s) (evs : List Event) :
    GoodState (runFrom s evs) := by
  induction evs generalizing s with
  | nil => exact hs
  | cons e evs ih => exact ih (good_step hs e)

theorem good_run (evs : List Event) : GoodState (run evs) :=
  good_runFrom good_init evs

end Juma

namespace Juma

theorem runFrom_append (s : ServerState) (a b : List Event) :
    runFrom s (a ++ b) = runFrom (runFrom s a) b := by
  rw [runFrom, runFrom, runFrom, List.foldl_append]

theorem client_persists_step (s : ServerState) (e : Event) {c : Client}
    (hc : c ∈ s.clients) :
    ∃ c', c' ∈ (step s e).clients ∧ c'.id = c.id ∧ c'.tokenOk = c.tokenOk ∧
      c'.hasMessageHandler = c.hasMessageHandler := by
  cases e with
  | openResult ok =>
    rw [step_openResult]
    cases ok with
    | false => exact ⟨c, hc, rfl, rfl, rfl⟩
    | true =>
      refine ⟨c, ?_, rfl, rfl, rfl⟩
      simp only [if_true]
      have hcl := (broadcast_fields (startWebSocketServer { s with serialConnected := true })
        statusConnected none).2.2.2.2.2.2.2.1
      show c ∈ (broadcastToClients (startWebSocketServer { s with serialConnected := true })
        statusConnected none).clients
      rw [hcl, startWebSocketServer]
      split
      · exact hc
      · exact hc
  | retryFire =>
    rw [step_retryFire]
    cases hp : s.pendingRetries with
    | nil => exact ⟨c, hc, rfl, rfl, rfl⟩
    | cons d rest => exact ⟨c, hc, rfl, rfl, rfl⟩
  | serialError msg =>
    rw [step_serialError]
    split
    · refine ⟨c, ?_, rfl, rfl, rfl⟩
      have hcl := (broadcast_fields (stopPolling { s with serialConnected := false })
        (statusError msg) none).2.2.2.2.2.2.2.1
      show c ∈ (broadcastToClients (stopPolling { s with serialConnected := false })
        (statusError msg) none).clients
      rw [hcl]
      exact hc
    · exact ⟨c, hc, rfl, rfl, rfl⟩
  | serialClose =>
    rw [step_serialClose]
    split
    · refine ⟨c, ?_, rfl, rfl, rfl⟩
      have hcl := (broadcast_fields (stopPolling { s with serialConnected := false })
        statusDisconnected none).2.2.2.2.2.2.2.1
      show c ∈ (broadcastToClients (stopPolling { s with serialConnected := false })
        statusDisconnected none).clients
      rw [hcl]
      exact hc
    · exact ⟨c, hc, rfl, rfl, rfl⟩
  | serialData chunk =>
    rw [step_serialData]
    split
    · have hcl := (foldl_broadcast_fields (dataStep s.serialBuffer chunk).1
        { s with serialBuffer := (dataStep s.serialBuffer chunk).2.1 }).2.2.2.2.2.2.2.1
      have hmem : c ∈ ((dataStep s.serialBuffer chunk).1.foldl
          (fun st line => broadcastToClients st line none)
          { s with serialBuffer := (dataStep s.serialBuffer chunk).2.1 }).clients := by
        rw [hcl]
        exact hc
      split
      · exact ⟨c, hmem, rfl, rfl, rfl⟩
      · exact ⟨c, hmem, rfl, rfl, rfl⟩
    · exact ⟨c, hc, rfl, rfl, rfl⟩
  | pollTick =>
    rw [step_pollTick]
    split
    · split
      · exact ⟨c, hc, rfl, rfl, rfl⟩
      · exact ⟨c, hc, rfl, rfl, rfl⟩
    · exact ⟨c, hc, rfl, rfl, rfl⟩
  | clientConnect tokenOk =>
    rw [step_clientConnect]
    split
    · split
      · split
        · exact ⟨c, List.mem_append_left _ hc, rfl, rfl, rfl⟩
        · exact ⟨c, List.mem_append_left _ hc, rfl, rfl, rfl⟩
      · exact ⟨c, List.mem_append_left _ hc, rfl, rfl, rfl⟩
    · exact ⟨c, hc, rfl, rfl, rfl⟩
  | clientMessage id payload =>
    rw [step_clientMessage]
    cases hf : s.clients.find? (fun x => x.id == id) with
    | none => exact ⟨c, hc, rfl, rfl, rfl⟩
    | some x =>
      show ∃ c', c' ∈ (if x.hasMessageHandler = true then
          if s.serialConnected = true then
            { s with serialWrites := s.serialWrites ++ [payload ++ crlf] }
          else { s with warnings := s.warnings + 1 }
        else s).clients ∧ c'.id = c.id ∧ c'.tokenOk = c.tokenOk ∧
          c'.hasMessageHandler = c.hasMessageHandler
      split
      · split
        · exact ⟨c, hc, rfl, rfl, rfl⟩
        · exact ⟨c, hc, rfl, rfl, rfl⟩
      · exact ⟨c, hc, rfl, rfl, rfl⟩
  | clientClose id =>
    rw [step_clientClose]
    refine ⟨if c.id == id then { c with readyState := RState.closed } else c,
      List.mem_map_of_mem _ hc, ?_, ?_, ?_⟩ <;> split <;> rfl

theorem client_persists_run (evs : List Event) (s : ServerState) {c : Client}
    (hc : c ∈ s.clients) :
    ∃ c', c' ∈ (runFrom s evs).clients ∧ c'.id = c.id ∧ c'.tokenOk = c.tokenOk ∧
      c'.hasMessageHandler = c.hasMessageHandler := by
  induction evs generalizing s c with
  | nil => exact ⟨c, hc, rfl, rfl, rfl⟩
  | cons e evs ih =>
    obtain ⟨c1, hm1, hid1, htok1, hmh1⟩ := client_persists_step s e hc
    obtain ⟨c2, hm2, hid2, htok2, hmh2⟩ := ih (step s e) hm1
    exact ⟨c2, hm2, hid2.trans hid1, htok2.trans htok1, hmh2.trans hmh1⟩

theorem disconnected_stays (evs : List Event) (s : ServerState)
    (hc : s.serialConnected = false) (hp : s.pollTimer = false)
    (hno : Event.openResult true ∉ evs) :
    (runFrom s evs).serialConnected = false ∧ (runFrom s evs).pollTimer = false := by
  induction evs generalizing s with
  | nil => exact ⟨hc, hp⟩
  | cons e evs ih =>
    have hno1 : Event.openResult true ≠ e := fun h => hno (h ▸ List.mem_cons_self _ _)
    have hno2 : Event.openResult true ∉ evs := fun h => hno (List.mem_cons_of_mem _ h)
    have hstep : (step s e).serialConnected = false ∧ (step s e).pollTimer = false := by
      cases e with
      | openResult ok =>
        cases ok with
        | true => exact absurd rfl hno1
        | false => exact ⟨hc, hp⟩
      | retryFire =>
        rw [step_retryFire]
        cases hpend : s.pendingRetries with
        | nil => exact ⟨hc, hp⟩
        | cons d rest => exact ⟨hc, hp⟩
      | serialError msg =>
        rw [step_serialError]
        split
        · have hb := broadcast_fields (stopPolling { s with serialConnected := false })
            (statusError msg) none
          exact ⟨hb.1, hb.2.2.1⟩
        · exact ⟨hc, hp⟩
      | serialClose =>
        rw [step_serialClose]
        split
        · have hb := broadcast_fields (stopPolling { s with serialConnected := false })
            statusDisconnected none
          exact ⟨hb.1, hb.2.2.1⟩
        · exact ⟨hc, hp⟩
      | serialData chunk =>
        rw [step_serialData]
        split
        · have hb := foldl_broadcast_fields (dataStep s.serialBuffer chunk).1
            { s with serialBuffer := (dataStep s.serialBuffer chunk).2.1 }
          split
          · exact ⟨hb.1.trans hc, hb.2.2.1.trans hp⟩
          · exact ⟨hb.1.trans hc, hb.2.2.1.trans hp⟩
        · exact ⟨hc, hp⟩
      | pollTick =>
        have hnp : ¬ (s.pollTimer = true) := by rw [hp]; simp
        rw [step_pollTick, if_neg hnp]
        exact ⟨hc, hp⟩
      | clientConnect tokenOk =>
        rw [step_clientConnect]
        split
        · split
          · have hns : ¬ (s.serialConnected = true) := by rw [hc]; simp
            rw [if_neg hns]
            exact ⟨hc, hp⟩
          · exact ⟨hc, hp⟩
        · exact ⟨hc, hp⟩
      | clientMessage id payload =>
        rw [step_clientMessage]
        cases hf : s.clients.find? (fun x => x.id == id) with
        | none => exact ⟨hc, hp⟩
        | some x =>
          show ((if x.hasMessageHandler = true then
              if s.serialConnected = true then
                { s with serialWrites := s.serialWrites ++ [payload ++ crlf] }
              else { s with warnings := s.warnings + 1 }
            else s).serialConnected = false ∧
            (if x.hasMessageHandler = true then
              if s.serialConnected = true then
                { s with serialWrites := s.serialWrites ++ [payload ++ crlf] }
              else { s with warnings := s.warnings + 1 }
            else s).pollTimer = false)
          split
          · split
            · exact ⟨hc, hp⟩
            · exact ⟨hc, hp⟩
          · exact ⟨hc, hp⟩
      | clientClose id => exact ⟨hc, hp⟩
    exact ih (step s e) hstep.1 hstep.2 hno2

theorem mem_broadcastDelivered {clients : List Client} {snd : Option Nat}
    {fails : Nat → Bool} (hnd : (clients.map (fun c => c.id)).Nodup) {c : Client}
    (hc : c ∈ clients) :
    c.id ∈ broadcastDelivered clients snd fails ↔
      c ∈ eligible clients snd ∧ fails c.id = false := by
  rw [broadcastDelivered]
  constructor
  · intro h
    obtain ⟨x, hx, hxid⟩ := List.mem_map.mp h
    obtain ⟨hxe, hxf⟩ := List.mem_filter.mp hx
    have hxc : x ∈ clients := (mem_eligible.mp hxe).1
    have hxe2 : x = c := nodup_map_id_inj hnd hxc hc hxid
    subst hxe2
    refine ⟨hxe, ?_⟩
    simpa using hxf
  · rintro ⟨he, hf⟩
    refine List.mem_map_of_mem _ (List.mem_filter.mpr ⟨he, ?_⟩)
    simp [hf]
end Juma

namespace Juma

theorem dataStep_eq (buffer chunk : List Char) :
    dataStep buffer chunk =
      if ((dataStepRaw buffer chunk).2).length > 1024 then
        ((dataStepRaw buffer chunk).1, [], true)
      else ((dataStepRaw buffer chunk).1, (dataStepRaw buffer chunk).2, false) := rfl

/-- C1 counterexample: delivering 1025 bytes of `a` and then `"\n"` as two
chunks emits no frame (the overflow guard clears the buffer between the
chunks), while the same bytes as one chunk emit the 1025-byte line. -/
theorem C1_counterexample :
    (runChunks [] [List.replicate 1025 'a', ['\n']]).1
      ≠ (dataStep [] ([List.replicate 1025 'a', ['\n']] : List (List Char)).flatten).1 := by
  have hraw : dataStepRaw [] (List.replicate 1025 'a') = ([], List.replicate 1025 'a') := by
    rw [dataStepRaw_eq, List.nil_append, removeCR_replicate_a,
      splitParts_no_nl (not_mem_replicate_a (by decide) 1025)]
    rfl
  have hstep1 : dataStep [] (List.replicate 1025 'a') = ([], [], true) := by
    rw [dataStep_eq, hraw, if_pos (by
      show (List.replicate 1025 'a').length > 1024
      rw [List.length_replicate]
      decide)]
  have hstep2 : dataStep [] ['\n'] = ([], [], false) := by decide
  have hL : (runChunks [] [List.replicate 1025 'a', ['\n']]).1 = [] := by
    rw [runChunks_cons, hstep1]
    show ([] : List (List Char)) ++ (runChunks [] [['\n']]).1 = []
    rw [runChunks_cons, hstep2]
    rfl
  have hflat : ([List.replicate 1025 'a', ['\n']] : List (List Char)).flatten
      = List.replicate 1025 'a' ++ ['\n'] := by simp
  have hsingleRaw : dataStepRaw [] (List.replicate 1025 'a' ++ ['\n'])
      = ([List.replicate 1025 'a'], []) := by
    rw [dataStepRaw_eq, List.nil_append, removeCR_append, removeCR_replicate_a,
      show removeCR ['\n'] = ['\n'] from rfl, splitParts_replicate_a_nl,
      show emitFrames [List.replicate 1025 'a'] = [List.replicate 1025 'a'] from by
        rw [emitFrames, List.map_cons, List.map_nil, jsTrim_replicate_a, List.filter_cons,
          if_pos (by rw [List.length_replicate]; decide), List.filter_nil]]
  have hsingle : dataStep [] (List.replicate 1025 'a' ++ ['\n'])
      = ([List.replicate 1025 'a'], [], false) := by
    rw [dataStep_eq, hsingleRaw, if_neg (by
      show ¬ (([] : List Char).length > 1024)
      decide)]
  rw [hL, hflat, hsingle]
  exact fun h => List.cons_ne_nil _ _ h.symm

/-- C1 (amended): chunk boundaries never alter the emitted frames PROVIDED
the unterminated residual buffer never exceeds the 1024-byte cap during the
incremental run (so the overflow guard never fires); without that proviso
the guard may discard data between chunks and the outputs differ. -/
theorem C1_framing_chunk_invariant (chunks : List (List Char))
    (h : ∀ i, i ≤ chunks.length →
      ((runChunksRaw [] (chunks.take i)).2).length ≤ 1024) :
    (runChunks [] chunks).1 = (dataStep [] chunks.flatten).1 := by
  rw [runChunks_eq_raw chunks [] h, runChunksRaw_join, dataStep_fst]

/-- C1 witness: a concrete split stream under the cap (`"a"`, `"b\n"`)
emits the same frames as the single chunk `"ab\n"`. -/
theorem C1_witness :
    (∀ i, i ≤ ([['a'], ['b', '\n']] : List (List Char)).length →
      ((runChunksRaw [] (([['a'], ['b', '\n']] : List (List Char)).take i)).2).length
        ≤ 1024) ∧
    (runChunks [] [['a'], ['b', '\n']]).1
      = (dataStep [] ([['a'], ['b', '\n']] : List (List Char)).flatten).1 := by
  refine ⟨?_, C1_framing_chunk_invariant [['a'], ['b', '\n']] ?_⟩ <;> decide

/-- C4: when the residual left after frame extraction exceeds 1024 bytes,
the buffer is reset to empty and the overflow flag is set, the frames of
the invocation are exactly those extracted before the guard, the next
invocation behaves as if the discarded bytes never existed, and in the
event machine the handler increments the warning count and leaves an empty
buffer. -/
theorem C4_overflow_guard (buffer chunk : List Char)
    (h : ((dataStepRaw buffer chunk).2).length > 1024) :
    dataStep buffer chunk = ((dataStepRaw buffer chunk).1, [], true) ∧
    (∀ chunk2 : List Char,
      dataStep (dataStep buffer chunk).2.1 chunk2 = dataStep [] chunk2) ∧
    (∀ s : ServerState, s.handlersInstalled = true → s.serialBuffer = buffer →
      (step s (.serialData chunk)).serialBuffer = [] ∧
      (step s (.serialData chunk)).warnings = s.warnings + 1) := by
  have hds : dataStep buffer chunk = ((dataStepRaw buffer chunk).1, [], true) := by
    rw [dataStep_eq, if_pos h]
  refine ⟨hds, fun c2 => by rw [hds], fun s hs hb => ?_⟩
  rw [step_serialData, if_pos hs, hb]
  have h22 : (dataStep buffer chunk).2.2 = true := by rw [hds]
  have h21 : (dataStep buffer chunk).2.1 = ([] : List Char) := by rw [hds]
  rw [if_pos h22]
  have hfb := foldl_broadcast_fields (dataStep buffer chunk).1
    { s with serialBuffer := (dataStep buffer chunk).2.1 }
  exact ⟨hfb.2.2.2.1.trans h21,
    congrArg (fun n => n + 1) hfb.2.2.2.2.2.2.2.2.2.2⟩

/-- C4 witness: 1025 unterminated bytes trip the guard concretely. -/
theorem C4_witness :
    ((dataStepRaw [] (List.replicate 1025 'a')).2).length > 1024 ∧
    dataStep [] (List.replicate 1025 'a')
      = ((dataStepRaw [] (List.replicate 1025 'a')).1, [], true) := by
  have hraw2 : dataStepRaw [] (List.replicate 1025 'a') = ([], List.replicate 1025 'a') := by
    rw [dataStepRaw_eq, List.nil_append, removeCR_replicate_a,
      splitParts_no_nl (not_mem_replicate_a (by decide) 1025)]
    rfl
  have hlen : ((dataStepRaw [] (List.replicate 1025 'a')).2).length > 1024 := by
    rw [hraw2]
    show (List.replicate 1025 'a').length > 1024
    rw [List.length_replicate]
    decide
  exact ⟨hlen, (C4_overflow_guard [] (List.replicate 1025 'a') hlen).1⟩

/-- C9: the 1024-byte cap never truncates or drops a complete line: the
guard leaves the emitted frames untouched, and any terminated segment of
the (buffer ++ chunk) stream, of arbitrary length, is emitted once trimmed
nonempty. -/
theorem C9_long_frames_intact (buffer chunk pre post : List Char)
    (hsplit : removeCR (buffer ++ chunk) = pre ++ '\n' :: post)
    (hpre : '\n' ∉ pre) :
    (dataStep buffer chunk).1 = (dataStepRaw buffer chunk).1 ∧
    (jsTrim pre ≠ [] → jsTrim pre ∈ (dataStep buffer chunk).1) := by
  refine ⟨dataStep_fst buffer chunk, fun hne => ?_⟩
  have hkeep : (decide (0 < (jsTrim pre).length)) = true := by
    simpa [List.length_pos] using hne
  rw [dataStep_fst, dataStepRaw_eq, hsplit, splitParts_append_nl hpre]
  show jsTrim pre ∈ emitFrames (pre :: (splitParts post).1)
  rw [emitFrames, List.map_cons, List.filter_cons, if_pos hkeep]
  exact List.mem_cons_self _ _

/-- C9 witness: a 2000-byte line arriving terminated is emitted intact. -/
theorem C9_witness :
    removeCR (([] : List Char) ++ (List.replicate 2000 'a' ++ ['\n']))
        = List.replicate 2000 'a' ++ '\n' :: [] ∧
    List.replicate 2000 'a' ∈ (dataStep [] (List.replicate 2000 'a' ++ ['\n'])).1 := by
  have h1 : removeCR (([] : List Char) ++ (List.replicate 2000 'a' ++ ['\n']))
      = List.replicate 2000 'a' ++ '\n' :: [] := by
    rw [List.nil_append, removeCR_append, removeCR_replicate_a]
    rfl
  refine ⟨h1, ?_⟩
  have h2 := (C9_long_frames_intact [] (List.replicate 2000 'a' ++ ['\n'])
    (List.replicate 2000 'a') [] h1 (not_mem_replicate_a (by decide) 2000)).2
  have h3 : jsTrim (List.replicate 2000 'a') ≠ [] := by
    rw [jsTrim_replicate_a]
    intro h
    have h5 := congrArg List.length h
    rw [List.length_replicate] at h5
    exact absurd h5 (by decide)
  have h4 := h2 h3
  rwa [jsTrim_replicate_a] at h4

end Juma

namespace Juma

/-- C2 counterexample: after a successful open, a serial `error` event
followed by a `close` event leaves TWO pending retries — nothing cancels
the first timer, refuting "at most one scheduled retry is pending". -/
theorem C2_counterexample :
    ((run [Event.openResult true, Event.serialError [],
        Event.serialClose]).pendingRetries).length = 2 ∧
    ¬ (((run [Event.openResult true, Event.serialError [],
        Event.serialClose]).pendingRetries).length ≤ 1) := by
  refine ⟨?_, ?_⟩ <;> decide

/-- C2 (amended): each link failure (open failure, error event, close
event) schedules one additional 5000 ms retry WITHOUT cancelling any
pending one, so pending retries accumulate; a pending retry is removed
only by firing. -/
theorem C2_retry_accumulation (s : ServerState) (msg : List Char)
    (hs : s.handlersInstalled = true) :
    (step s (.serialError msg)).pendingRetries = s.pendingRetries ++ [5000] ∧
    (step s .serialClose).pendingRetries = s.pendingRetries ++ [5000] ∧
    (step s (.openResult false)).pendingRetries = s.pendingRetries ++ [5000] ∧
    (step s .retryFire).pendingRetries = s.pendingRetries.drop 1 := by
  refine ⟨?_, ?_, ?_, ?_⟩
  · rw [step_serialError, if_pos hs]
  · rw [step_serialClose, if_pos hs]
  · rfl
  · rw [step_retryFire]
    cases hp : s.pendingRetries with
    | nil =>
      show s.pendingRetries = List.drop 1 []
      rw [hp]
      rfl
    | cons d rest => rfl

/-- C2 witness: concrete close after open appends one 5000 ms retry. -/
theorem C2_witness :
    (run [Event.openResult true]).handlersInstalled = true ∧
    (step (run [Event.openResult true]) Event.serialClose).pendingRetries
      = (run [Event.openResult true]).pendingRetries ++ [5000] :=
  ⟨by decide, (C2_retry_accumulation (run [Event.openResult true]) [] (by decide)).2.1⟩

/-- C3: in any reachable state, a client is in the broadcast recipient set
iff it is open, authenticated (token matched) and not the excluded sender;
one broadcast appends exactly those sends; with a per-socket failure
oracle, delivery to a client depends only on its own send outcome, so one
client's failure never affects the others. -/
theorem C3_broadcast_exact (evs : List Event) (m : List Char) (snd : Option Nat)
    (c : Client) (fails fails2 : Nat → Bool) (hc : c ∈ (run evs).clients) :
    (c ∈ eligible (run evs).clients snd ↔
      (c.readyState = RState.wsOpen ∧ c.tokenOk = true ∧ snd ≠ some c.id)) ∧
    ((run evs).wssStarted = true →
      (broadcastToClients (run evs) m snd).sent
        = (run evs).sent ++ (eligible (run evs).clients snd).map (fun x => (x.id, m))) ∧
    (c.id ∈ broadcastDelivered (run evs).clients snd fails ↔
      (c ∈ eligible (run evs).clients snd ∧ fails c.id = false)) ∧
    (fails c.id = fails2 c.id →
      (c.id ∈ broadcastDelivered (run evs).clients snd fails ↔
       c.id ∈ broadcastDelivered (run evs).clients snd fails2)) := by
  obtain ⟨h1, h2, h3, h4, h5, h6⟩ := good_run evs
  refine ⟨?_, ?_, ?_, ?_⟩
  · constructor
    · intro he
      obtain ⟨_, hrs, hsnd⟩ := mem_eligible.mp he
      have htok : c.tokenOk = true := by
        by_contra hno
        exact (h3 c hc (by simpa using hno)).1 hrs
      exact ⟨hrs, htok, hsnd⟩
    · rintro ⟨hrs, _, hsnd⟩
      exact mem_eligible.mpr ⟨hc, hrs, hsnd⟩
  · intro hw
    rw [broadcastToClients, if_pos hw]
  · exact mem_broadcastDelivered h2 hc
  · intro hff
    rw [mem_broadcastDelivered h2 hc, mem_broadcastDelivered h2 hc, hff]

/-- C3 witness: the single authenticated open client of a concrete run is
eligible exactly as characterised. -/
theorem C3_witness :
    (⟨0, true, RState.wsOpen, true⟩ : Client)
        ∈ (run [Event.openResult true, Event.clientConnect true]).clients ∧
    ((⟨0, true, RState.wsOpen, true⟩ : Client)
        ∈ eligible (run [Event.openResult true, Event.clientConnect true]).clients none ↔
      ((⟨0, true, RState.wsOpen, true⟩ : Client).readyState = RState.wsOpen ∧
       (⟨0, true, RState.wsOpen, true⟩ : Client).tokenOk = true ∧
       (none : Option Nat) ≠ some (⟨0, true, RState.wsOpen, true⟩ : Client).id)) :=
  ⟨by decide,
   (C3_broadcast_exact [Event.openResult true, Event.clientConnect true] [] none
     (⟨0, true, RState.wsOpen, true⟩ : Client) (fun _ => false) (fun _ => false)
     (by decide)).1⟩

end Juma

namespace Juma

/-- C5: a connection presenting a wrong token is closed at once with
nothing else changed (no reply is sent, no serial write happens), no
message is ever sent to it afterwards, and any later payload event from
it is a complete no-op (its `message` handler was never registered). -/
theorem C5_reject_isolated (evs1 evs2 : List Event) (p : List Char)
    (hw : (run evs1).wssStarted = true) :
    (step (run evs1) (.clientConnect false)
      = { (run evs1) with
          clients := (run evs1).clients
            ++ [(⟨(run evs1).nextId, false, RState.closing, false⟩ : Client)],
          nextId := (run evs1).nextId + 1 }) ∧
    (∀ m : List Char,
      ((run evs1).nextId, m)
        ∉ (runFrom (step (run evs1) (.clientConnect false)) evs2).sent) ∧
    (step (runFrom (step (run evs1) (.clientConnect false)) evs2)
        (.clientMessage (run evs1).nextId p)
      = runFrom (step (run evs1) (.clientConnect false)) evs2) := by
  have hstep : step (run evs1) (.clientConnect false)
      = { (run evs1) with
          clients := (run evs1).clients
            ++ [(⟨(run evs1).nextId, false, RState.closing, false⟩ : Client)],
          nextId := (run evs1).nextId + 1 } := by
    rw [step_clientConnect, if_pos hw, if_neg (by decide : ¬ (false = true))]
  have hbadmem : (⟨(run evs1).nextId, false, RState.closing, false⟩ : Client)
      ∈ (step (run evs1) (.clientConnect false)).clients := by
    rw [hstep]
    exact List.mem_append_right _ (List.mem_singleton.mpr rfl)
  obtain ⟨g1, g2, g3, g4, g5, g6⟩ :
      GoodState (runFrom (step (run evs1) (.clientConnect false)) evs2) :=
    good_runFrom (good_step (good_run evs1) _) evs2
  obtain ⟨c', hcm, hcid, hctok, hcmh⟩ := client_persists_run evs2 _ hbadmem
  refine ⟨hstep, ?_, ?_⟩
  · intro m hmem
    obtain ⟨c2, hc2m, hc2id, hc2tok⟩ := g4 _ hmem
    have he : c2 = c' := nodup_map_id_inj g2 hc2m hcm (by rw [hc2id, hcid])
    rw [he] at hc2tok
    exact Bool.noConfusion (hctok.symm.trans hc2tok)
  · rw [step_clientMessage]
    cases hf : (runFrom (step (run evs1) (.clientConnect false)) evs2).clients.find?
        (fun x => x.id == (run evs1).nextId) with
    | none => rfl
    | some x =>
      have hxm := List.mem_of_find?_eq_some hf
      have hxid : x.id = (run evs1).nextId := by
        have hxp := List.find?_some hf
        simpa using hxp
      have hxc : x = c' := nodup_map_id_inj g2 hxm hcm (by rw [hxid, hcid])
      have hxmh : ¬ (x.hasMessageHandler = true) := by
        rw [hxc, hcmh]
        exact Bool.false_ne_true
      show (if x.hasMessageHandler = true then
          if (runFrom (step (run evs1) (.clientConnect false)) evs2).serialConnected
              = true then
            { (runFrom (step (run evs1) (.clientConnect false)) evs2) with
              serialWrites :=
                (runFrom (step (run evs1) (.clientConnect false)) evs2).serialWrites
                  ++ [p ++ crlf] }
          else
            { (runFrom (step (run evs1) (.clientConnect false)) evs2) with
              warnings :=
                (runFrom (step (run evs1) (.clientConnect false)) evs2).warnings + 1 }
        else runFrom (step (run evs1) (.clientConnect false)) evs2)
        = runFrom (step (run evs1) (.clientConnect false)) evs2
      rw [if_neg hxmh]

/-- C5 witness: the rejected client's payload event is a no-op concretely. -/
theorem C5_witness :
    (run [Event.openResult true]).wssStarted = true ∧
    step (runFrom (step (run [Event.openResult true]) (.clientConnect false)) [])
        (.clientMessage (run [Event.openResult true]).nextId [])
      = runFrom (step (run [Event.openResult true]) (.clientConnect false)) [] :=
  ⟨by decide, (C5_reject_isolated [Event.openResult true] [] [] (by decide)).2.2⟩

/-- C6: a correct-token connection writes exactly one poll command
`=R\r\n` to the link when it is connected (and only registers the client
otherwise); no other field of the state changes. -/
theorem C6_connect_poll_write (s : ServerState) (hw : s.wssStarted = true) :
    (s.serialConnected = true →
      step s (.clientConnect true)
        = { s with
            clients := s.clients ++ [(⟨s.nextId, true, RState.wsOpen, true⟩ : Client)],
            nextId := s.nextId + 1,
            serialWrites := s.serialWrites ++ [pollCmd] }) ∧
    (s.serialConnected = false →
      step s (.clientConnect true)
        = { s with
            clients := s.clients ++ [(⟨s.nextId, true, RState.wsOpen, true⟩ : Client)],
            nextId := s.nextId + 1 }) := by
  constructor
  · intro hc
    rw [step_clientConnect, if_pos hw, if_pos (by decide : (true = true)), if_pos hc]
  · intro hc
    rw [step_clientConnect, if_pos hw, if_pos (by decide : (true = true)),
      if_neg (by rw [hc]; decide)]

/-- C6 witness: the first client connecting on a live link triggers the
one poll write. -/
theorem C6_witness :
    (run [Event.openResult true]).wssStarted = true ∧
    step (run [Event.openResult true]) (.clientConnect true)
      = { (run [Event.openResult true]) with
          clients := (run [Event.openResult true]).clients
            ++ [(⟨(run [Event.openResult true]).nextId, true, RState.wsOpen, true⟩ : Client)],
          nextId := (run [Event.openResult true]).nextId + 1,
          serialWrites := (run [Event.openResult true]).serialWrites ++ [pollCmd] } :=
  ⟨by decide,
   (C6_connect_poll_write (run [Event.openResult true]) (by decide)).1 (by decide)⟩

/-- C7: a client payload arriving while the link is down only increments
the warning count — nothing is written, nothing is queued, the client set
(and hence the connection) is untouched; with the link up the payload is
written with `\r\n` appended and nothing else changes. -/
theorem C7_message_drop_or_forward (s : ServerState) (id : Nat) (payload : List Char)
    (c : Client) (hf : s.clients.find? (fun x => x.id == id) = some c)
    (hmh : c.hasMessageHandler = true) :
    (s.serialConnected = false →
      step s (.clientMessage id payload) = { s with warnings := s.warnings + 1 }) ∧
    (s.serialConnected = true →
      step s (.clientMessage id payload)
        = { s with serialWrites := s.serialWrites ++ [payload ++ crlf] }) := by
  constructor
  · intro hc
    rw [step_clientMessage, hf]
    show (if c.hasMessageHandler = true then
        if s.serialConnected = true then
          { s with serialWrites := s.serialWrites ++ [payload ++ crlf] }
        else { s with warnings := s.warnings + 1 }
      else s) = { s with warnings := s.warnings + 1 }
    rw [if_pos hmh, if_neg (by rw [hc]; decide)]
  · intro hc
    rw [step_clientMessage, hf]
    show (if c.hasMessageHandler = true then
        if s.serialConnected = true then
          { s with serialWrites := s.serialWrites ++ [payload ++ crlf] }
        else { s with warnings := s.warnings + 1 }
      else s) = { s with serialWrites := s.serialWrites ++ [payload ++ crlf] }
    rw [if_pos hmh, if_pos hc]

/-- C7 witness: the one connected client's payload is forwarded with the
terminator appended. -/
theorem C7_witness :
    (run [Event.openResult true, Event.clientConnect true]).clients.find?
        (fun x => x.id == 0) = some (⟨0, true, RState.wsOpen, true⟩ : Client) ∧
    step (run [Event.openResult true, Event.clientConnect true]) (.clientMessage 0 ['x'])
      = { (run [Event.openResult true, Event.clientConnect true]) with
          serialWrites :=
            (run [Event.openResult true, Event.clientConnect true]).serialWrites
              ++ [['x'] ++ crlf] } :=
  ⟨by decide,
   (C7_message_drop_or_forward (run [Event.openResult true, Event.clientConnect true])
     0 ['x'] (⟨0, true, RState.wsOpen, true⟩ : Client) (by decide) (by decide)).2
     (by decide)⟩

end Juma

namespace Juma

/-- C8: a link `close` event sets the link to disconnected, stops the poll
timer, schedules exactly one 5000 ms retry, sends the literal status line
`[STATUS] Serial disconnected` to exactly the open clients (all of which
are authenticated in any reachable state), and no poll tick can write to
the link again until a successful reopen. -/
theorem C8_close_effects (evs : List Event)
    (hh : (run evs).handlersInstalled = true) :
    (step (run evs) .serialClose).serialConnected = false ∧
    (step (run evs) .serialClose).pollTimer = false ∧
    (step (run evs) .serialClose).pendingRetries
      = (run evs).pendingRetries ++ [5000] ∧
    (step (run evs) .serialClose).sent
      = (run evs).sent
        ++ (eligible (run evs).clients none).map (fun c => (c.id, statusDisconnected)) ∧
    (∀ c ∈ eligible (run evs).clients none, c.tokenOk = true) ∧
    (∀ evs2, Event.openResult true ∉ evs2 →
      step (runFrom (step (run evs) .serialClose) evs2) .pollTick
        = runFrom (step (run evs) .serialClose) evs2) := by
  obtain ⟨h1, h2, h3, h4, h5, h6⟩ := good_run evs
  have hw : (run evs).wssStarted = true := h6 hh
  have hstep : step (run evs) .serialClose
      = { (broadcastToClients (stopPolling { (run evs) with serialConnected := false })
            statusDisconnected none) with
          pendingRetries := (run evs).pendingRetries ++ [5000] } := by
    rw [step_serialClose, if_pos hh]
  have hb := broadcast_fields (stopPolling { (run evs) with serialConnected := false })
    statusDisconnected none
  have hsc : (step (run evs) .serialClose).serialConnected = false := by
    rw [hstep]
    exact hb.1
  have hpt : (step (run evs) .serialClose).pollTimer = false := by
    rw [hstep]
    exact hb.2.2.1
  refine ⟨hsc, hpt, by rw [hstep], ?_, ?_, ?_⟩
  · rw [hstep]
    show (broadcastToClients (stopPolling { (run evs) with serialConnected := false })
        statusDisconnected none).sent = _
    have hw2 : (stopPolling { (run evs) with serialConnected := false }).wssStarted
        = true := hw
    rw [broadcastToClients, if_pos hw2]
    rfl
  · intro c hc
    obtain ⟨hcm, hrs, _⟩ := mem_eligible.mp hc
    by_contra hno
    exact (h3 c hcm (by simpa using hno)).1 hrs
  · intro evs2 hno
    have hd := disconnected_stays evs2 _ hsc hpt hno
    rw [step_pollTick, if_neg (by rw [hd.2]; exact Bool.false_ne_true)]

/-- C8 witness: concrete close after open schedules the single retry. -/
theorem C8_witness :
    (run [Event.openResult true]).handlersInstalled = true ∧
    (step (run [Event.openResult true]) Event.serialClose).pendingRetries
      = (run [Event.openResult true]).pendingRetries ++ [5000] :=
  ⟨by decide, (C8_close_effects [Event.openResult true] (by decide)).2.2.1⟩

/-- C10: at most one client server is ever created over the whole process
lifetime; starting it again is the identity once it exists; and a
successful serial (re)open never changes the client set. -/
theorem C10_server_created_once :
    (∀ evs : List Event, (run evs).wssStartCount ≤ 1) ∧
    (∀ s : ServerState, s.wssStarted = true → startWebSocketServer s = s) ∧
    (∀ s : ServerState, (step s (.openResult true)).clients = s.clients) := by
  refine ⟨?_, ?_, ?_⟩
  · intro evs
    have h5 := (good_run evs).2.2.2.2.1
    rw [h5]
    split
    · exact Nat.le_refl 1
    · exact Nat.zero_le 1
  · intro s hw
    rw [startWebSocketServer, if_pos hw]
  · intro s
    rw [step_openResult, if_pos rfl]
    have hcl := (broadcast_fields (startWebSocketServer { s with serialConnected := true })
      statusConnected none).2.2.2.2.2.2.2.1
    show (broadcastToClients (startWebSocketServer { s with serialConnected := true })
      statusConnected none).clients = s.clients
    rw [hcl, startWebSocketServer]
    split
    · rfl
    · rfl

/-- C10 witness: re-invoking the startup guard after a successful open is
the identity, and the concrete start count is 1. -/
theorem C10_witness :
    (run [Event.openResult true]).wssStarted = true ∧
    startWebSocketServer (run [Event.openResult true]) = run [Event.openResult true] ∧
    (run [Event.openResult true, Event.openResult true]).wssStartCount ≤ 1 :=
  ⟨by decide,
   C10_server_created_once.2.1 (run [Event.openResult true]) (by decide),
   C10_server_created_once.1 [Event.openResult true, Event.openResult true]⟩

end Juma
